import Mathlib

/-!
Verification of the exam-data extraction pipeline (`src/app.py`).

The Python source is shallowly embedded: every function of the pipeline
(payload recovery, HTML field extraction, record normalisation, section
grouping, document assembly) becomes an executable Lean definition that
mirrors the corresponding lines of `app.py`.  JSON leaf fields are
modelled as `Option String` (a `dict.get` that may return `None` or a
string); the HTTP layer and the JSON parser are abstract parameters, so
that the control flow proved about them holds for every behaviour of
those collaborators.  Python `str` values are modelled as Lean `String`,
with dedicated helpers reproducing Python truthiness, `str.strip`,
`int(...)` parsing and `str.replace`, written on `List Char` so that all
definitions reduce inside the kernel.
-/

/-! ## Python string semantics helpers -/

/-- The characters Python's `\s` regex class and `str.strip` treat as
whitespace (ASCII subset). -/
def pyIsSpace (c : Char) : Bool :=
  c = ' ' || c = '\t' || c = '\n' || c = '\r' || c = '\x0b' || c = '\x0c'

/-- `str.strip()` on a character list: drop whitespace from both ends. -/
def pyStripChars (cs : List Char) : List Char :=
  ((cs.dropWhile pyIsSpace).reverse.dropWhile pyIsSpace).reverse

/-- `str.strip()` on a `String`. -/
def py_strip (s : String) : String :=
  String.mk (pyStripChars s.data)

/-- Python truthiness of a `str`-or-`None` value: `None` and `""` are falsy. -/
def pyTruthy (v : Option String) : Bool :=
  match v with
  | none => false
  | some s => !s.isEmpty

/-- Python `a or b` for two `str`-or-`None` values. -/
def pyOrOpt (a b : Option String) : Option String :=
  if pyTruthy a then a else b

/-- Python `a or d` where `a` is `str`-or-`None` and `d` is a `str`. -/
def pyOrStr (a : Option String) (d : String) : String :=
  match a with
  | some s => if s.isEmpty then d else s
  | none => d

/-- Python `str(x)` for a `str`-or-`None` value (`str(None) = "None"`). -/
def pyStrOfOpt (v : Option String) : String :=
  match v with
  | none => "None"
  | some s => s

/-- Digit run with Python underscore grouping (`int("1_0") = 10`,
`int("1__0")` and `int("1_")` raise), continuing after a first digit. -/
def duVal : Nat → List Char → Option Nat
  | acc, [] => some acc
  | acc, c :: rest =>
    if c.isDigit then duVal (acc * 10 + (c.toNat - 48)) rest
    else if c = '_' then
      match rest with
      | d :: rest2 => if d.isDigit then duVal (acc * 10 + (d.toNat - 48)) rest2 else none
      | [] => none
    else none

/-- A digit run (optionally with underscore grouping) evaluating to a `Nat`;
`none` when the run is empty or malformed. -/
def digitsVal : List Char → Option Nat
  | [] => none
  | c :: rest => if c.isDigit then duVal (c.toNat - 48) rest else none

/-- Python `int(s)` on a string: surrounding whitespace is stripped, an
optional sign is allowed, then a digit run; `none` models `ValueError`. -/
def pyInt (s : String) : Option Int :=
  match pyStripChars s.data with
  | '+' :: rest => (digitsVal rest).map Int.ofNat
  | '-' :: rest => (digitsVal rest).map (fun n => -(n : Int))
  | rest => (digitsVal rest).map Int.ofNat

/-- One pass of `re.sub(r'\s+', ' ', text)`: every whitespace run becomes a
single space.  `prevSpace` records whether the previous character belonged
to a run already rewritten. -/
def squeezeWS (prevSpace : Bool) : List Char → List Char
  | [] => []
  | c :: rest =>
    if pyIsSpace c then
      if prevSpace then squeezeWS true rest else ' ' :: squeezeWS true rest
    else c :: squeezeWS false rest

/-- `re.sub(r'\s+', ' ', text).strip()` as used by the field extractor. -/
def collapse_ws (s : String) : String :=
  String.mk (pyStripChars (squeezeWS false s.data))

/-- Decode the HTML character references produced by this corpus
(model of `html.unescape` and of `html.parser`'s `convert_charrefs`,
restricted to the named/numeric references the source data uses). -/
def decodeEntities : List Char → List Char
  | [] => []
  | '&' :: 'a' :: 'm' :: 'p' :: ';' :: rest => '&' :: decodeEntities rest
  | '&' :: 'l' :: 't' :: ';' :: rest => '<' :: decodeEntities rest
  | '&' :: 'g' :: 't' :: ';' :: rest => '>' :: decodeEntities rest
  | '&' :: 'q' :: 'u' :: 'o' :: 't' :: ';' :: rest => '"' :: decodeEntities rest
  | '&' :: 'a' :: 'p' :: 'o' :: 's' :: ';' :: rest => '\'' :: decodeEntities rest
  | '&' :: '#' :: '3' :: '9' :: ';' :: rest => '\'' :: decodeEntities rest
  | c :: rest => c :: decodeEntities rest

/-- `html.unescape` on a `String` (model, see `decodeEntities`). -/
def html_unescape (s : String) : String :=
  String.mk (decodeEntities s.data)

/-- `s.startswith(p)` on character lists (kernel-reducible). -/
def strStartsWith (s p : String) : Bool :=
  p.data.isPrefixOf s.data

/-- Replace every occurrence of the pattern `pat` (non-empty) by `repl`,
scanning left to right: Python `str.replace`.  `fuel` bounds the number of
examined characters; it is instantiated with the length of the input. -/
def replaceChars (fuel : Nat) (pat repl cs : List Char) : List Char :=
  match fuel, cs with
  | 0, cs => cs
  | _, [] => []
  | fuel + 1, c :: rest =>
    if pat.isPrefixOf (c :: rest) then
      repl ++ replaceChars fuel pat repl ((c :: rest).drop pat.length)
    else
      c :: replaceChars fuel pat repl rest

/-- Python `s.replace(pat, repl)` (for a non-empty pattern). -/
def py_replace (s pat repl : String) : String :=
  String.mk (replaceChars s.data.length pat.data repl.data s.data)

example : py_replace "a\\\"b\\\"c" "\\\"" "\"" = "a\"b\"c" := by decide
example : pyInt "2" = some 2 := by decide
example : pyInt " -1_2 " = some (-12) := by decide
example : pyInt "" = none := by decide
example : pyInt "<p>2</p>" = none := by decide
example : collapse_ws "  a \n\t b " = "a b" := by decide

/-! ## Field Extractor: `parse_html_field` (app.py lines 65-76)

`BeautifulSoup(s, 'html.parser')` is modelled by a tokenizer over the
character stream: tags (with attributes), close tags, comments and text
runs, with character references decoded in text and attribute values and
tag/attribute names lowercased, as `html.parser` does.  `get_text` and
`find_all('img')` only inspect the token stream in document order, so the
token list is a sufficient model of the soup. -/

/-- A lexical token of the HTML fragment. -/
inductive HTok where
  | textTok (s : String)
  | tagTok (name : String) (attrs : List (String × Option String))
  | closeTok (name : String)
deriving DecidableEq, Repr

/-- Characters allowed in tag and attribute names (html.parser). -/
def isNameChar (c : Char) : Bool :=
  c.isAlphanum || c = '-' || c = '.' || c = ':' || c = '_'

/-- Lowercase a name, as `html.parser` does for tag and attribute names. -/
def lowerName (cs : List Char) : String :=
  String.mk (cs.map Char.toLower)

/-- Parse the attribute list of an open tag, consuming up to and including
the terminating `>`.  Values may be single-quoted, double-quoted or bare;
a valueless attribute gets value `none`, like `html.parser`.  `fuel`
bounds the scan and is instantiated with the input length. -/
def parseAttrsAux : Nat → List Char → List (String × Option String) × List Char
  | 0, cs => ([], cs)
  | fuel + 1, cs =>
    match cs.dropWhile pyIsSpace with
    | [] => ([], [])
    | '>' :: rest => ([], rest)
    | '/' :: rest => parseAttrsAux fuel rest
    | c :: rest =>
      let nameRun := (c :: rest).takeWhile isNameChar
      if nameRun.isEmpty then parseAttrsAux fuel rest
      else
        let name := lowerName nameRun
        let afterName := ((c :: rest).dropWhile isNameChar).dropWhile pyIsSpace
        match afterName with
        | '=' :: vrest =>
          let vrest2 := vrest.dropWhile pyIsSpace
          let parsed : List Char × List Char :=
            match vrest2 with
            | '"' :: q => (q.takeWhile (· ≠ '"'), (q.dropWhile (· ≠ '"')).drop 1)
            | '\'' :: q => (q.takeWhile (· ≠ '\''), (q.dropWhile (· ≠ '\'')).drop 1)
            | other => (other.takeWhile (fun ch => !pyIsSpace ch && ch ≠ '>'),
                        other.dropWhile (fun ch => !pyIsSpace ch && ch ≠ '>'))
          let (attrs, fin) := parseAttrsAux fuel parsed.2
          ((name, some (String.mk (decodeEntities parsed.1))) :: attrs, fin)
        | _ =>
          let (attrs, fin) := parseAttrsAux fuel afterName
          ((name, none) :: attrs, fin)

/-- Drop characters up to and past the first occurrence of `-->`. -/
def dropCommentEnd : List Char → List Char
  | [] => []
  | '-' :: '-' :: '>' :: rest => rest
  | _ :: rest => dropCommentEnd rest

/-- Tokenize an HTML fragment.  Each step consumes at least one character,
so `fuel = length + 1` never runs out. -/
def lexHTMLAux : Nat → List Char → List HTok
  | 0, _ => []
  | _, [] => []
  | fuel + 1, '<' :: '/' :: rest =>
    let name := rest.takeWhile isNameChar
    let after := (rest.dropWhile isNameChar).dropWhile (· ≠ '>')
    HTok.closeTok (lowerName name) :: lexHTMLAux fuel (after.drop 1)
  | fuel + 1, '<' :: '!' :: '-' :: '-' :: rest =>
    lexHTMLAux fuel (dropCommentEnd rest)
  | fuel + 1, '<' :: '!' :: rest =>
    lexHTMLAux fuel ((rest.dropWhile (· ≠ '>')).drop 1)
  | fuel + 1, '<' :: rest =>
    match rest with
    | c :: _ =>
      if c.isAlpha then
        let name := lowerName (rest.takeWhile isNameChar)
        let (attrs, rest2) := parseAttrsAux rest.length (rest.dropWhile isNameChar)
        HTok.tagTok name attrs :: lexHTMLAux fuel rest2
      else HTok.textTok "<" :: lexHTMLAux fuel rest
    | [] => [HTok.textTok "<"]
  | fuel + 1, cs =>
    let txt := cs.takeWhile (· ≠ '<')
    HTok.textTok (String.mk (decodeEntities txt)) :: lexHTMLAux fuel (cs.dropWhile (· ≠ '<'))

/-- Token stream of an HTML fragment. -/
def lexHTML (s : String) : List HTok :=
  lexHTMLAux (s.data.length + 1) s.data

/-- `soup.get_text(separator=' ', strip=True)`: each string of the document
is stripped, empties are skipped, and the rest joined with a space. -/
def soup_get_text (toks : List HTok) : String :=
  String.intercalate " " (toks.filterMap (fun t =>
    match t with
    | HTok.textTok s => let t := py_strip s; if t.isEmpty then none else some t
    | _ => none))

/-- Is this token an `img` open tag (`soup.find_all('img')` membership)? -/
def is_img_tag (t : HTok) : Bool :=
  match t with
  | HTok.tagTok name _ => name = "img"
  | _ => false

/-- `img.get('src')`: the value of the first `src` attribute, `none` for an
absent or valueless attribute. -/
def tag_src (t : HTok) : Option String :=
  match t with
  | HTok.tagTok _ attrs => (attrs.lookup "src").join
  | _ => none

/-- `parse_html_field` (app.py lines 65-76): empty or `None` input yields
`("", [])`; otherwise the fragment is tokenized, the text content is
joined with single-space separators, whitespace-collapsed and trimmed, and
every `img` tag's truthy `src` is collected in document order. -/
def parse_html_field (s : Option String) : String × List String :=
  if !pyTruthy s then ("", [])
  else
    let str := s.getD ""
    let toks := lexHTML str
    let text := collapse_ws (soup_get_text toks)
    let images := (toks.filter is_img_tag).foldl (fun acc t =>
      match tag_src t with
      | some src => if src.isEmpty then acc else acc ++ [src]
      | none => acc) []
    (text, images)

example : lexHTML "<p>A &amp; B<img src='/x.png'></p>" =
    [HTok.tagTok "p" [], HTok.textTok "A & B",
     HTok.tagTok "img" [("src", some "/x.png")], HTok.closeTok "p"] := by decide
example : parse_html_field (some "<p>A &amp; B<img src='/x.png'></p>") =
    ("A & B", ["/x.png"]) := by decide
example : parse_html_field (some "<div> x <IMG SRC=\"a.png\"/>y<img></div>") =
    ("x y", ["a.png"]) := by decide
example : parse_html_field (some "plain  text") = ("plain text", []) := by decide

/-! ## Record Normalizer: `process_data` (app.py lines 79-133) -/

/-- A JSON object of string-or-null leaf fields: `d.get(k)` returns `none`
for an absent key or a `null` value, otherwise the string. -/
def StrDict := List (String × Option String)

instance : DecidableEq StrDict := by unfold StrDict; infer_instance

/-- `d.get(k)` on a `StrDict`. -/
def dget (d : StrDict) (k : String) : Option String :=
  (d.lookup k).join

/-- `d[k] = v` (functional update; prepending shadows under `dget`). -/
def set_field (d : StrDict) (k : String) (v : Option String) : StrDict :=
  (k, v) :: d

/-- One section entry of the payload: the keys `process_data` reads.
`all_questions` is the topic→questions mapping in insertion order; only
its values are consumed. -/
structure SectionEntry where
  section_id : Option String
  sec_id : Option String
  section_name : Option String
  sec_name : Option String
  all_questions : List (String × List StrDict)

/-- The recovered payload; `raw_json.get('data', [])` is the `data` field,
with `[]` standing for an absent key. -/
structure RawJson where
  data : List SectionEntry

/-- One option of a question record. -/
structure OptionRec where
  text : String
  images : List String
deriving DecidableEq, Repr

/-- A normalized question record (the dict built at app.py lines 119-131). -/
structure Entry where
  qid : Option String
  section_id : Option String
  section_name : String
  topic_id : Option String
  question_text : String
  question_images : List String
  options : List OptionRec
  answer_index : Option Int
  answer_text : String
  solution_text : String
  solution_images : List String
deriving DecidableEq, Repr

/-- `labels = ['a', 'b', 'c', 'd', 'e']` (app.py lines 81 and 158). -/
def labelsList : List String := ["a", "b", "c", "d", "e"]

/-- The option-slot field name `f'option_{lang}_{i}'`. -/
def option_key (lang : String) (i : Nat) : String :=
  "option_" ++ lang ++ "_" ++ toString i

/-- The option loop of `process_data` (app.py lines 92-99): for slots 1-5,
a truthy `option_{lang}_{i}` is parsed and kept when its text or image
list is non-empty. -/
def collect_options (lang : String) (q : StrDict) : List OptionRec :=
  [1, 2, 3, 4, 5].foldl (fun acc i =>
    match dget q (option_key lang i) with
    | some s =>
      if s.isEmpty then acc
      else
        let p := parse_html_field (some s)
        if !p.1.isEmpty || !p.2.isEmpty then acc ++ [⟨p.1, p.2⟩] else acc
    | none => acc) []

/-- The answer resolution of `process_data` (app.py lines 100-115):
a truthy `answer_en` is parsed as an `int`; a valid 1-based index within
the option count sets `answer_index` and a single-letter `answer_text`;
otherwise `answer_{lang}` (or the raw value) is parsed as HTML.  An
absent/empty `answer_en` leaves `(None, '')`. -/
def resolve_answer (optCount : Nat) (lang : String) (q : StrDict) : Option Int × String :=
  match dget q "answer_en" with
  | none => (none, "")
  | some s =>
    if s.isEmpty then (none, "")
    else
      match pyInt s with
      | some i0 =>
        if 1 ≤ i0 ∧ i0 ≤ (optCount : Int) then
          (some (i0 - 1),
           if i0 - 1 < (labelsList.length : Int) then labelsList.getD (i0 - 1).toNat ""
           else toString i0)
        else
          (none, (parse_html_field (pyOrOpt (dget q ("answer_" ++ lang)) (some s))).1)
      | none =>
        (none, (parse_html_field (pyOrOpt (dget q ("answer_" ++ lang)) (some s))).1)

/-- The per-question body of `process_data` (app.py lines 86-132). -/
def processQuestion (sec_id : Option String) (sec_name : String) (lang : String)
    (q : StrDict) : Entry :=
  let qp := parse_html_field (some (pyOrStr (dget q ("question_" ++ lang)) ""))
  let options := collect_options lang q
  let ans := resolve_answer options.length lang q
  let sp := parse_html_field (some (pyOrStr (dget q ("solution_" ++ lang)) ""))
  { qid := dget q "qid"
    section_id := sec_id
    section_name := sec_name
    topic_id := dget q "topic_id"
    question_text := qp.1
    question_images := qp.2
    options := options
    answer_index := ans.1
    answer_text := ans.2
    solution_text := sp.1
    solution_images := sp.2 }

/-- `sec_id` of a section entry (app.py line 83). -/
def sectionIdOf (se : SectionEntry) : Option String :=
  pyOrOpt se.section_id se.sec_id

/-- `sec_name` of a section entry (app.py line 84). -/
def sectionNameOf (se : SectionEntry) : String :=
  pyOrStr (pyOrOpt se.section_name se.sec_name) (pyStrOfOpt (sectionIdOf se))

/-- `process_data` (app.py lines 79-133): nested loops over sections,
topic lists and questions, appending one record per question. -/
def process_data (raw : RawJson) (lang : String) : List Entry :=
  raw.data.foldl (fun cleaned se =>
    se.all_questions.foldl (fun cleaned kv =>
      kv.2.foldl (fun cleaned q =>
        cleaned ++ [processQuestion (sectionIdOf se) (sectionNameOf se) lang q]) cleaned)
      cleaned) []

/-! ## Section Grouper: `group_by_section` (app.py lines 136-144)

A Python dict preserves insertion order, so the accumulator is an
association list in first-insertion order with unique keys. -/

/-- One section group: `{'name': ..., 'questions': [...]}`. -/
structure SectionGroup where
  name : String
  questions : List Entry
deriving DecidableEq, Repr

/-- `entry.get('section_id') or ''`: the grouping key of a record. -/
def gbs_key (e : Entry) : String :=
  pyOrStr e.section_id ""

/-- `entry.get('section_name') or str(sid)`: the group name contributed by
a record. -/
def gbs_name (e : Entry) : String :=
  if e.section_name.isEmpty then gbs_key e else e.section_name

/-- `sections[sid]['questions'].append(entry)`: append to the (unique)
group with the given key. -/
def gbs_append (sections : List (String × SectionGroup)) (sid : String) (e : Entry) :
    List (String × SectionGroup) :=
  match sections with
  | [] => []
  | (k, g) :: rest =>
    if k = sid then (k, ⟨g.name, g.questions ++ [e]⟩) :: rest
    else (k, g) :: gbs_append rest sid e

/-- The loop body of `group_by_section` (app.py lines 138-143). -/
def gbs_step (sections : List (String × SectionGroup)) (e : Entry) :
    List (String × SectionGroup) :=
  let sid := gbs_key e
  let sections' :=
    if sections.any (fun kg => kg.1 = sid) then sections
    else sections ++ [(sid, ⟨gbs_name e, []⟩)]
  gbs_append sections' sid e

/-- `group_by_section` (app.py lines 136-144). -/
def group_by_section (cleaned : List Entry) : List (String × SectionGroup) :=
  cleaned.foldl gbs_step []

/-! ## Document Assembler: `create_docx` and `fetch_image_bytes`
(app.py lines 147-197)

The document writer is modelled as the ordered instruction list it
receives: text paragraphs, inline pictures (bytes at a fixed width, tagged
with the resolved source URL) and page breaks.  The HTTP layer is an
abstract `http : String → Except String ByteData`; `requests.get` plus
`raise_for_status` either produce the body bytes or raise. -/

/-- Raw image bytes. -/
abbrev ByteData := List Nat

/-- Split a character list at the first occurrence of a pattern, returning
the parts before and after it; `none` when the pattern does not occur. -/
def splitAtSub (pat : List Char) : List Char → Option (List Char × List Char)
  | [] => none
  | c :: rest =>
    if pat.isPrefixOf (c :: rest) then some ([], (c :: rest).drop pat.length)
    else
      match splitAtSub pat rest with
      | some (pre, post) => some (c :: pre, post)
      | none => none

/-- `urllib.parse.urljoin(base, url)` modelled for the one case the code
reaches: `url` is an absolute path (starts with `/`), so the result keeps
the scheme and network location of `base` and replaces its path; a base
without a scheme leaves `url` unchanged. -/
def url_join (base url : String) : String :=
  match splitAtSub "://".data base.data with
  | some (scheme, rest) =>
    String.mk scheme ++ "://" ++ String.mk (rest.takeWhile (· ≠ '/')) ++ url
  | none => url

/-- One instruction sent to the document writer. -/
inductive DocItem where
  | para (text : String)
  | pic (src : String) (data : ByteData) (width : Nat)
  | pageBreak
deriving DecidableEq, Repr

/-- The URL-resolution step of `fetch_image_bytes` (app.py lines 185-189):
`//…` is promoted to `https://…`; a root-relative path is joined to a
truthy base URL; anything else is used as-is. -/
def resolve_img_url (img_url : String) (base_url : Option String) : String :=
  if strStartsWith img_url "//" then "https:" ++ img_url
  else if strStartsWith img_url "/" && pyTruthy base_url then
    url_join (base_url.getD "") img_url
  else img_url

/-- `fetch_image_bytes` (app.py lines 182-197): an empty reference yields
`None`; otherwise the reference is resolved and fetched, and any fetch
failure is swallowed into `None`. -/
def fetch_image_bytes (http : String → Except String ByteData) (img_url : String)
    (base_url : Option String) : Option ByteData :=
  if img_url.isEmpty then none
  else
    match http (resolve_img_url img_url base_url) with
    | Except.ok b => some b
    | Except.error _ => none

/-- The option label of `create_docx` (app.py line 161):
`labels[idx] if idx < len(labels) else str(idx+1)`. -/
def option_label (idx : Nat) : String :=
  if idx < labelsList.length then labelsList.getD idx "" else toString (idx + 1)

/-- An image-embedding loop of `create_docx` (app.py lines 154-157,
163-166, 171-174): fetch each reference and add an inline picture at
width `Inches(4)` when the fetch succeeded. -/
def add_images (http : String → Except String ByteData) (base_url : Option String)
    (doc : List DocItem) (urls : List String) : List DocItem :=
  urls.foldl (fun d u =>
    match fetch_image_bytes http u base_url with
    | some b => d ++ [DocItem.pic (resolve_img_url u base_url) b 4]
    | none => d) doc

/-- `create_docx` (app.py lines 147-179): per record, a question
paragraph with its images, one labeled paragraph per option with its
images, an answer paragraph, a solution paragraph with its images, and a
page break. -/
def create_docx (http : String → Except String ByteData) (cleaned_entries : List Entry)
    (base_url : Option String) : List DocItem :=
  cleaned_entries.foldl (fun doc entry =>
    let doc := doc ++ [DocItem.para ("[Q] " ++ entry.question_text)]
    let doc := add_images http base_url doc entry.question_images
    let doc := entry.options.enum.foldl (fun d p =>
      let d := d ++ [DocItem.para ("(" ++ option_label p.1 ++ ") " ++ p.2.text)]
      add_images http base_url d p.2.images) doc
    let doc := doc ++ [DocItem.para ("[ANS] " ++ entry.answer_text)]
    let doc := doc ++ [DocItem.para ("[SOL] " ++ entry.solution_text)]
    let doc := add_images http base_url doc entry.solution_images
    doc ++ [DocItem.pageBreak]) []

/-! ## Payload Recovery: `fetch_raw_json` / `extract_json_from_html_wrapper`
(app.py lines 38-62)

The JSON parser is an abstract `parse : String → Except E J`, so the
recovery control flow is proved for every parser behaviour.  A raised
exception is modelled as the list of parse errors accumulated along
Python's implicit exception chaining (`__context__`): the head is the
error finally raised, the last element the original direct-parse failure. -/

/-- Case-insensitive character equality. -/
def ciEq (a b : Char) : Bool := a.toLower = b.toLower

/-- Is `pat` a case-insensitive prefix of the suffix of `cs` starting at
`i`? -/
def ciPrefixAt (pat : List Char) (cs : List Char) (i : Nat) : Bool :=
  let region := (cs.drop i).take pat.length
  region.length = pat.length && (List.zip pat region).all (fun p => ciEq p.1 p.2)

/-- Does `<body[^>]*>` match at position `i` (case-insensitively, with a
terminating `>` present)? -/
def bodyOpenAt (cs : List Char) (i : Nat) : Bool :=
  ciPrefixAt "<body".data cs i &&
    !(((cs.drop (i + 5)).dropWhile (· ≠ '>')).isEmpty)

/-- The index one past the `>` of the `<body[^>]*>` match at `i`. -/
def bodyContentStart (cs : List Char) (i : Nat) : Nat :=
  i + 5 + ((cs.drop (i + 5)).takeWhile (· ≠ '>')).length + 1

/-- The capture of `re.search(r'<body[^>]*>(.*)</body>', …, DOTALL|IGNORECASE)`:
the regex matches at the leftmost `<body[^>]*>` that is followed by some
`</body>`, and the greedy `(.*)` extends to the start of the last
`</body>` in the content. -/
def extract_body_region (cs : List Char) : Option (List Char) :=
  let closes := (List.range cs.length).filter (fun j => ciPrefixAt "</body>".data cs j)
  match (List.range cs.length).find? (fun i =>
      bodyOpenAt cs i && closes.any (fun j => bodyContentStart cs i ≤ j)) with
  | some i =>
    let start := bodyContentStart cs i
    match (closes.filter (fun j => start ≤ j)).getLast? with
    | some j => some ((cs.drop start).take (j - start))
    | none => none
  | none => none

/-- `extract_json_from_html_wrapper` (app.py lines 54-62): extract and
strip the first `<body>…</body>` region (the whole stripped content when
the regex does not match), decode HTML entities, parse; on failure,
un-escape `\"` and parse again.  A final failure raises the second error
with the first chained behind it. -/
def extract_json_from_html_wrapper {E J : Type} (parse : String → Except E J)
    (html_content : String) : Except (List E) J :=
  let inner := html_unescape (String.mk (pyStripChars
    (match extract_body_region html_content.data with
     | some r => r
     | none => html_content.data)))
  match parse inner with
  | Except.ok j => Except.ok j
  | Except.error e1 =>
    match parse (py_replace inner "\\\"" "\"") with
    | Except.ok j => Except.ok j
    | Except.error e2 => Except.error [e2, e1]

/-- The recovery pipeline applied to raw payload content, as in
`fetch_raw_json` (app.py lines 43-46) and `fetch_json_from_url`
(lines 32-35): a direct parse, falling back to
`extract_json_from_html_wrapper`; a final failure carries the original
direct-parse error at the end of the exception chain. -/
def fetch_raw_json_content {E J : Type} (parse : String → Except E J)
    (content : String) : Except (List E) J :=
  match parse content with
  | Except.ok j => Except.ok j
  | Except.error e0 =>
    match extract_json_from_html_wrapper parse content with
    | Except.ok j => Except.ok j
    | Except.error chain => Except.error (chain ++ [e0])

/-- The decoded `<body>` region strategy input: shared by the spec-side
strategy list below. -/
def decoded_body_region (content : String) : String :=
  html_unescape (String.mk (pyStripChars
    (match extract_body_region content.data with
     | some r => r
     | none => content.data)))

/-- The ordered recovery strategies exactly as the specification words
them: direct parse; parse of the entity-decoded `<body>` region; parse of
that region with escaped double-quotes replaced. -/
def recovery_strategies {E J : Type} (parse : String → Except E J)
    (content : String) : List (Except E J) :=
  [parse content,
   parse (decoded_body_region content),
   parse (py_replace (decoded_body_region content) "\\\"" "\"")]

/-- First successful result of a strategy list, `none` when all fail. -/
def first_ok {E J : Type} : List (Except E J) → Option J
  | [] => none
  | Except.ok j :: _ => some j
  | Except.error _ :: rest => first_ok rest

/-- Payload recovery as the specification describes it: the ordered
strategies tried in sequence until one succeeds. -/
def spec_recovery {E J : Type} (parse : String → Except E J) (content : String) :
    Option J :=
  first_ok (recovery_strategies parse content)

example : extract_body_region "<html><BODY class='x'>{1}</body></html>".data =
    some "{1}".data := by decide
example : extract_body_region "<p>no body</p>".data = none := by decide
example : extract_body_region "<body>a</body>b</body>".data = some "a</body>b".data := by
  decide

/-! ## Generic loop lemmas -/

/-- An append-one-element loop is a `map`. -/
theorem foldl_append_map {α β : Type} (f : α → β) (acc : List β) (l : List α) :
    l.foldl (fun a x => a ++ [f x]) acc = acc ++ l.map f := by
  induction l generalizing acc with
  | nil => simp
  | cons x xs ih => simp [List.foldl_cons, ih, List.append_assoc]

/-- An append-a-block loop is a `flatMap`. -/
theorem foldl_append_flat {α β : Type} (f : α → List β) (acc : List β) (l : List α) :
    l.foldl (fun a x => a ++ f x) acc = acc ++ l.flatMap f := by
  induction l generalizing acc with
  | nil => simp
  | cons x xs ih => simp [List.foldl_cons, ih, List.append_assoc]

/-- A conditional append-one-element loop is a `filterMap`. -/
theorem foldl_append_filterMap {α β : Type} (f : α → Option β) (acc : List β) (l : List α) :
    l.foldl (fun a x => a ++ (f x).toList) acc = acc ++ l.filterMap f := by
  induction l generalizing acc with
  | nil => simp
  | cons x xs ih =>
    cases h : f x <;> simp [List.foldl_cons, h, ih, List.append_assoc]

/-! ## Structural lemmas about `process_data` -/

/-- `process_data` flattened: one record per question, in traversal order. -/
theorem process_data_eq (raw : RawJson) (lang : String) :
    process_data raw lang = raw.data.flatMap (fun se =>
      se.all_questions.flatMap (fun kv =>
        kv.2.map (processQuestion (sectionIdOf se) (sectionNameOf se) lang))) := by
  unfold process_data
  have h1 : ∀ (sid : Option String) (sname : String) (acc : List Entry) (qs : List StrDict),
      qs.foldl (fun cleaned q => cleaned ++ [processQuestion sid sname lang q]) acc
        = acc ++ qs.map (processQuestion sid sname lang) :=
    fun sid sname acc qs => foldl_append_map _ _ _
  simp only [h1]
  have h2 : ∀ (sid : Option String) (sname : String) (acc : List Entry)
      (kvs : List (String × List StrDict)),
      kvs.foldl (fun cleaned kv => cleaned ++ kv.2.map (processQuestion sid sname lang)) acc
        = acc ++ kvs.flatMap (fun kv => kv.2.map (processQuestion sid sname lang)) :=
    fun sid sname acc kvs => foldl_append_flat _ _ _
  simp only [h2]
  exact foldl_append_flat _ _ _

/-- Membership in `process_data`: exactly the processed question objects. -/
theorem mem_process_data {raw : RawJson} {lang : String} {r : Entry} :
    r ∈ process_data raw lang ↔
      ∃ se ∈ raw.data, ∃ kv ∈ se.all_questions, ∃ q ∈ kv.2,
        r = processQuestion (sectionIdOf se) (sectionNameOf se) lang q := by
  rw [process_data_eq]
  simp only [List.mem_flatMap, List.mem_map]
  constructor
  · rintro ⟨se, hse, kv, hkv, q, hq, hr⟩
    exact ⟨se, hse, kv, hkv, q, hq, hr.symm⟩
  · rintro ⟨se, hse, kv, hkv, q, hq, hr⟩
    exact ⟨se, hse, kv, hkv, q, hq, hr.symm⟩

/-- One option slot, as the specification words it: slot `i` is retained
exactly when its resolved content has non-empty text or at least one
image. -/
def opt_slot (lang : String) (q : StrDict) (i : Nat) : Option OptionRec :=
  match dget q (option_key lang i) with
  | some s =>
    if s.isEmpty then none
    else
      if !(parse_html_field (some s)).1.isEmpty || !(parse_html_field (some s)).2.isEmpty
      then some ⟨(parse_html_field (some s)).1, (parse_html_field (some s)).2⟩
      else none
  | none => none

/-- The option loop keeps exactly the populated slots 1-5 in slot order. -/
theorem collect_options_eq (lang : String) (q : StrDict) :
    collect_options lang q = [1, 2, 3, 4, 5].filterMap (opt_slot lang q) := by
  have hbody : (fun (acc : List OptionRec) (i : Nat) =>
      match dget q (option_key lang i) with
      | some s =>
        if s.isEmpty then acc
        else
          let p := parse_html_field (some s)
          if !p.1.isEmpty || !p.2.isEmpty then acc ++ [⟨p.1, p.2⟩] else acc
      | none => acc)
      = (fun (acc : List OptionRec) (i : Nat) => acc ++ (opt_slot lang q i).toList) := by
    funext acc i
    unfold opt_slot
    cases dget q (option_key lang i) with
    | none => simp
    | some s =>
      by_cases hs : s.isEmpty <;> simp [hs]
      split <;> simp
  unfold collect_options
  rw [hbody]
  have h := foldl_append_filterMap (opt_slot lang q) ([] : List OptionRec) [1, 2, 3, 4, 5]
  rw [List.nil_append] at h
  exact h

/-- At most five options are ever retained. -/
theorem collect_options_length_le (lang : String) (q : StrDict) :
    (collect_options lang q).length ≤ 5 := by
  rw [collect_options_eq]
  have := List.length_filterMap_le (opt_slot lang q) [1, 2, 3, 4, 5]
  simpa using this

/-! ## Lemmas about the answer resolution -/

/-- `int(x)` applied to a `str`-or-`None` field value (absent or `null`
never parses; a string parses via `pyInt`). -/
def int_field : Option String → Option Int
  | none => none
  | some s => pyInt s

/-- `pyInt` of the empty string fails. -/
theorem pyInt_empty : pyInt "" = none := by decide

/-- When `answer_en` is absent, `null` or the empty string, the answer
resolution yields `(None, '')`. -/
theorem resolve_answer_empty (optCount : Nat) (lang : String) (q : StrDict)
    (h : dget q "answer_en" = none ∨ dget q "answer_en" = some "") :
    resolve_answer optCount lang q = (none, "") := by
  have he : ("" : String).isEmpty = true := by decide
  unfold resolve_answer
  rcases h with h | h <;> rw [h]
  simp [he]

/-- The valid-numeric-choice branch: a parsed index within range yields the
zero-based index and its single-letter label. -/
theorem resolve_answer_valid (optCount : Nat) (lang : String) (q : StrDict)
    (s : String) (n : Int) (hget : dget q "answer_en" = some s) (hn : pyInt s = some n)
    (h1 : 1 ≤ n) (h2 : n ≤ (optCount : Int)) :
    resolve_answer optCount lang q =
      (some (n - 1),
       if n - 1 < (labelsList.length : Int) then labelsList.getD (n - 1).toNat ""
       else toString n) := by
  have hs : ¬s.isEmpty := by
    intro hs
    rw [String.isEmpty_iff] at hs
    rw [hs, pyInt_empty] at hn
    exact Option.noConfusion hn
  unfold resolve_answer
  rw [hget]
  simp only [hs, Bool.false_eq_true, if_false, hn]
  rw [if_pos ⟨h1, h2⟩]

/-- The fallback branch: a truthy `answer_en` that is not a valid numeric
choice leaves the index unset and parses `answer_{lang}` (or, when that is
absent or empty, the raw `answer_en` value) as HTML. -/
theorem resolve_answer_fallback (optCount : Nat) (lang : String) (q : StrDict)
    (s : String) (hget : dget q "answer_en" = some s) (hs : ¬s.isEmpty)
    (hinv : ∀ n : Int, pyInt s = some n → ¬(1 ≤ n ∧ n ≤ (optCount : Int))) :
    resolve_answer optCount lang q =
      (none, (parse_html_field (pyOrOpt (dget q ("answer_" ++ lang)) (some s))).1) := by
  unfold resolve_answer
  rw [hget]
  simp only [hs, Bool.false_eq_true, if_false]
  cases hn : pyInt s with
  | none => rfl
  | some n => simp [hinv n hn]

/-- `answer_index` is set exactly when `answer_en` parses as an integer
that is a valid 1-based index into the retained options. -/
theorem resolve_answer_isSome_iff (optCount : Nat) (lang : String) (q : StrDict) :
    (resolve_answer optCount lang q).1.isSome ↔
      ∃ n : Int, int_field (dget q "answer_en") = some n ∧ 1 ≤ n ∧ n ≤ (optCount : Int) := by
  unfold resolve_answer int_field
  cases hget : dget q "answer_en" with
  | none => simp
  | some s =>
    by_cases hs : s.isEmpty
    · rw [String.isEmpty_iff] at hs
      subst hs
      have he : ("" : String).isEmpty = true := by decide
      simp [he, pyInt_empty]
    · simp only [hs, Bool.false_eq_true, if_false]
      cases hn : pyInt s with
      | none => simp
      | some n =>
        by_cases hr : 1 ≤ n ∧ n ≤ (optCount : Int)
        · simp [hr.1, hr.2]
        · simp [hr]

/-! ## Structural lemmas about `create_docx` -/

/-- The images of one block as embedded: each reference that fetches
successfully becomes an inline picture at the fixed display width 4,
tagged with its resolved URL. -/
def embed_images (http : String → Except String ByteData) (base : Option String)
    (urls : List String) : List DocItem :=
  urls.filterMap (fun u =>
    (fetch_image_bytes http u base).map (fun b => DocItem.pic (resolve_img_url u base) b 4))

/-- The image loop appends exactly the embedded images. -/
theorem add_images_eq (http : String → Except String ByteData) (base : Option String)
    (doc : List DocItem) (urls : List String) :
    add_images http base doc urls = doc ++ embed_images http base urls := by
  unfold add_images embed_images
  have hbody : (fun (d : List DocItem) (u : String) =>
      match fetch_image_bytes http u base with
      | some b => d ++ [DocItem.pic (resolve_img_url u base) b 4]
      | none => d)
      = (fun (d : List DocItem) (u : String) =>
          d ++ ((fetch_image_bytes http u base).map
            (fun b => DocItem.pic (resolve_img_url u base) b 4)).toList) := by
    funext d u
    cases fetch_image_bytes http u base <;> simp
  rw [hbody]
  exact foldl_append_filterMap _ _ _

/-- The block of document instructions one record contributes, as the
specification describes it: question paragraph and images, one labeled
paragraph per option (by position) with its images, answer paragraph,
solution paragraph and images, page break. -/
def record_block (http : String → Except String ByteData) (base : Option String)
    (e : Entry) : List DocItem :=
  [DocItem.para ("[Q] " ++ e.question_text)] ++ embed_images http base e.question_images
    ++ e.options.enum.flatMap (fun p =>
        DocItem.para ("(" ++ option_label p.1 ++ ") " ++ p.2.text)
          :: embed_images http base p.2.images)
    ++ [DocItem.para ("[ANS] " ++ e.answer_text), DocItem.para ("[SOL] " ++ e.solution_text)]
    ++ embed_images http base e.solution_images ++ [DocItem.pageBreak]

/-- `create_docx` emits, per record in sequence order, exactly that
record's block. -/
theorem create_docx_eq (http : String → Except String ByteData) (entries : List Entry)
    (base : Option String) :
    create_docx http entries base = entries.flatMap (record_block http base) := by
  unfold create_docx
  have hinner : ∀ (opts : List (Nat × OptionRec)) (d : List DocItem),
      opts.foldl (fun d p =>
        add_images http base
          (d ++ [DocItem.para ("(" ++ option_label p.1 ++ ") " ++ p.2.text)]) p.2.images) d
        = d ++ opts.flatMap (fun p =>
            DocItem.para ("(" ++ option_label p.1 ++ ") " ++ p.2.text)
              :: embed_images http base p.2.images) := by
    intro opts
    induction opts with
    | nil => simp
    | cons p ps ih =>
      intro d
      rw [List.foldl_cons, add_images_eq, ih]
      simp [List.append_assoc]
  have hf : (fun (doc : List DocItem) (entry : Entry) =>
      let doc := doc ++ [DocItem.para ("[Q] " ++ entry.question_text)]
      let doc := add_images http base doc entry.question_images
      let doc := entry.options.enum.foldl (fun d p =>
        let d := d ++ [DocItem.para ("(" ++ option_label p.1 ++ ") " ++ p.2.text)]
        add_images http base d p.2.images) doc
      let doc := doc ++ [DocItem.para ("[ANS] " ++ entry.answer_text)]
      let doc := doc ++ [DocItem.para ("[SOL] " ++ entry.solution_text)]
      let doc := add_images http base doc entry.solution_images
      doc ++ [DocItem.pageBreak])
      = (fun doc entry => doc ++ record_block http base entry) := by
    funext doc e
    simp only [hinner]
    simp only [add_images_eq]
    simp [record_block, List.append_assoc]
  rw [hf]
  have h := foldl_append_flat (record_block http base) ([] : List DocItem) entries
  rw [List.nil_append] at h
  exact h

/-! ## Claim C1 -/

/-- C1: for every question object processed by `process_data`,
`answer_index` is present exactly when the `answer_en` field parses as an
integer `n` with `1 ≤ n ≤` the number of retained options; when present,
`answer_index = n - 1` (so `0 ≤ answer_index < len(options)`) and
`answer_text` is the single letter at that position. -/
theorem claim_C1 (raw : RawJson) (lang : String) (r : Entry)
    (hmem : r ∈ process_data raw lang) :
    (∀ i : Int, r.answer_index = some i →
      0 ≤ i ∧ i < (r.options.length : Int) ∧ r.answer_text = labelsList.getD i.toNat "") ∧
    ∃ sid sname q, r = processQuestion sid sname lang q ∧
      (r.answer_index.isSome ↔
        ∃ n : Int, int_field (dget q "answer_en") = some n ∧ 1 ≤ n ∧
          n ≤ (r.options.length : Int)) ∧
      (∀ n : Int, int_field (dget q "answer_en") = some n → 1 ≤ n →
        n ≤ (r.options.length : Int) →
        r.answer_index = some (n - 1) ∧ r.answer_text = labelsList.getD (n - 1).toNat "") := by
  obtain ⟨se, hse, kv, hkv, q, hq, hr⟩ := mem_process_data.mp hmem
  subst hr
  have hopts : (processQuestion (sectionIdOf se) (sectionNameOf se) lang q).options
      = collect_options lang q := rfl
  have hidx : (processQuestion (sectionIdOf se) (sectionNameOf se) lang q).answer_index
      = (resolve_answer (collect_options lang q).length lang q).1 := rfl
  have htxt : (processQuestion (sectionIdOf se) (sectionNameOf se) lang q).answer_text
      = (resolve_answer (collect_options lang q).length lang q).2 := rfl
  have hle5 := collect_options_length_le lang q
  have key : ∀ n : Int, int_field (dget q "answer_en") = some n → 1 ≤ n →
      n ≤ ((collect_options lang q).length : Int) →
      resolve_answer (collect_options lang q).length lang q
        = (some (n - 1), labelsList.getD (n - 1).toNat "") := by
    intro n hn h1 h2
    cases hget : dget q "answer_en" with
    | none => rw [hget] at hn; exact Option.noConfusion hn
    | some s =>
      rw [hget] at hn
      have hv := resolve_answer_valid (collect_options lang q).length lang q s n hget hn h1 h2
      rw [hv]
      have hlt : n - 1 < (labelsList.length : Int) := by
        have : ((collect_options lang q).length : Int) ≤ 5 := by exact_mod_cast hle5
        have h5 : (labelsList.length : Int) = 5 := by decide
        omega
      rw [if_pos hlt]
  constructor
  · intro i hi
    rw [hidx] at hi
    have hsome : (resolve_answer (collect_options lang q).length lang q).1.isSome := by
      rw [hi]; rfl
    obtain ⟨n, hn, h1, h2⟩ := (resolve_answer_isSome_iff _ lang q).mp hsome
    have hk := key n hn h1 (by exact_mod_cast h2)
    rw [hk] at hi
    have hin : i = n - 1 := by
      have := Option.some.inj hi
      omega
    subst hin
    refine ⟨by omega, ?_, ?_⟩
    · rw [hopts]; exact_mod_cast by omega
    · rw [htxt, hk]
  · refine ⟨sectionIdOf se, sectionNameOf se, q, rfl, ?_, ?_⟩
    · rw [hidx, hopts]
      exact resolve_answer_isSome_iff _ lang q
    · intro n hn h1 h2
      rw [hopts] at h2
      have hk := key n hn h1 h2
      rw [hidx, htxt, hk]
      exact ⟨rfl, rfl⟩

/-- The C1 scenario payload: one section, one topic, one question with
`answer_en = "2"` and four populated options. -/
def qC1 : StrDict :=
  [("answer_en", some "2"), ("option_en_1", some "w"), ("option_en_2", some "x"),
   ("option_en_3", some "y"), ("option_en_4", some "z"), ("question_en", some "Q?")]

/-- The C1 scenario section entry. -/
def seC1 : SectionEntry :=
  ⟨some "1", none, some "Sec", none, [("t", [qC1])]⟩

/-- The C1 scenario payload tree. -/
def rawC1 : RawJson := ⟨[seC1]⟩

/-- The record the C1 scenario produces. -/
def rC1 : Entry := processQuestion (some "1") "Sec" "en" qC1

/-- C1 witness: on the scenario payload, `answer_en = "2"` with four
retained options yields `answer_index = 1` and `answer_text = "b"`, and
the invariant of `claim_C1` holds at that record. -/
theorem claim_C1_witness :
    rC1.answer_index = some 1 ∧ rC1.answer_text = "b" ∧ rC1.options.length = 4 ∧
    (∀ i : Int, rC1.answer_index = some i →
      0 ≤ i ∧ i < (rC1.options.length : Int) ∧ rC1.answer_text = labelsList.getD i.toNat "") := by
  refine ⟨by decide, by decide, by decide, ?_⟩
  exact (claim_C1 rawC1 "en" rC1 (by decide)).1

/-! ## Claim C3 -/

/-- An HTTP layer on which every fetch fails. -/
def httpNone : String → Except String ByteData := fun _ => Except.error "down"

/-- An HTTP layer on which every fetch yields the bytes `[7]`. -/
def httpOK : String → Except String ByteData := fun _ => Except.ok [7]

/-- A question with populated option slots 1 and 3 and an empty slot 2. -/
def qC3 : StrDict :=
  [("option_en_1", some "X"), ("option_en_3", some "Y"), ("question_en", some "Q")]

/-- The record produced for `qC3`. -/
def rC3 : Entry := processQuestion (some "s") "S" "en" qC3

/-- C3 counterexample: the claim says an empty slot does not shift the
labels of subsequent populated slots (slot `i` keeps the label of position
`i`).  On a question whose populated slots are 1 and 3, the slot-3 option
is compacted to position 1 and rendered with label `(b)`, not `(c)`: the
gap does shift the labels. -/
theorem claim_C3_counterexample :
    rC3.options = [⟨"X", []⟩, ⟨"Y", []⟩] ∧
    create_docx httpNone [rC3] none =
      [DocItem.para "[Q] Q", DocItem.para "(a) X", DocItem.para "(b) Y",
       DocItem.para "[ANS] ", DocItem.para "[SOL] ", DocItem.pageBreak] ∧
    DocItem.para "(c) Y" ∉ create_docx httpNone [rC3] none := by
  refine ⟨by decide, by decide, by decide⟩

/-- C3 (amended): every record's options sequence contains exactly the
option slots 1-5 whose resolved content has non-empty text or at least one
image, in slot order, so its length is at most 5; an empty or missing slot
compacts the list, and each retained option is labeled by its position in
the compacted list (so a gap shifts the labels of subsequent slots). -/
theorem claim_C3 (raw : RawJson) (lang : String) (r : Entry)
    (hmem : r ∈ process_data raw lang) :
    r.options.length ≤ 5 ∧
    (∃ sid sname q, r = processQuestion sid sname lang q ∧
      r.options = [1, 2, 3, 4, 5].filterMap (opt_slot lang q)) ∧
    (∀ http base p, p ∈ r.options.enum →
      DocItem.para ("(" ++ option_label p.1 ++ ") " ++ p.2.text)
        ∈ create_docx http [r] base) := by
  obtain ⟨se, hse, kv, hkv, q, hq, hr⟩ := mem_process_data.mp hmem
  subst hr
  have hopts : (processQuestion (sectionIdOf se) (sectionNameOf se) lang q).options
      = collect_options lang q := rfl
  refine ⟨?_, ⟨sectionIdOf se, sectionNameOf se, q, rfl, ?_⟩, ?_⟩
  · rw [hopts]; exact collect_options_length_le lang q
  · rw [hopts]; exact collect_options_eq lang q
  · intro http base p hp
    rw [create_docx_eq]
    simp only [List.flatMap_cons, List.flatMap_nil, List.append_nil]
    unfold record_block
    refine List.mem_append_left _ (List.mem_append_left _ (List.mem_append_left _
      (List.mem_append_right _ ?_)))
    exact List.mem_flatMap.mpr ⟨p, hp, List.mem_cons_self _ _⟩

/-- C3 witness: on the C1 scenario record (four options), the options list
has length 4 ≤ 5 and the first option is rendered with label `(a)`. -/
theorem claim_C3_witness :
    rC1.options.length ≤ 5 ∧
    DocItem.para "(a) w" ∈ create_docx httpNone [rC1] none := by
  have h := claim_C3 rawC1 "en" rC1 (by decide)
  refine ⟨h.1, ?_⟩
  have hm := h.2.2 httpNone none (0, ⟨"w", []⟩) (by decide)
  have he : ("(" ++ option_label 0 ++ ") " ++ ("w" : String)) = "(a) w" := by decide
  rw [he] at hm
  exact hm

/-! ## Claim C4 -/

/-- Every embedded picture has the fixed display width 4. -/
theorem embed_images_width (http : String → Except String ByteData) (base : Option String)
    (urls : List String) (u : String) (b : ByteData) (w : Nat)
    (h : DocItem.pic u b w ∈ embed_images http base urls) : w = 4 := by
  unfold embed_images at h
  obtain ⟨v, hv, hmap⟩ := List.mem_filterMap.mp h
  cases hf : fetch_image_bytes http v base with
  | none => rw [hf] at hmap; exact Option.noConfusion hmap
  | some bytes =>
    rw [hf] at hmap
    simp only [Option.map_some', Option.some.injEq, DocItem.pic.injEq] at hmap
    omega

/-- C4: the document produced by `create_docx` contains, per record in
sequence order, a question block, each option block labeled by its
position, an answer block and a solution block, with the images of those
blocks fetched and embedded inline at the fixed display width 4, followed
by a page break. -/
theorem claim_C4 (http : String → Except String ByteData) (entries : List Entry)
    (base : Option String) :
    create_docx http entries base = entries.flatMap (record_block http base) ∧
    (∀ u b w, DocItem.pic u b w ∈ create_docx http entries base → w = 4) := by
  refine ⟨create_docx_eq http entries base, ?_⟩
  intro u b w hmem
  rw [create_docx_eq] at hmem
  obtain ⟨e, he, hin⟩ := List.mem_flatMap.mp hmem
  unfold record_block at hin
  simp at hin
  rcases hin with h | ⟨a, p2, hp, h⟩ | h
  · exact embed_images_width http base _ u b w h
  · exact embed_images_width http base _ u b w h
  · exact embed_images_width http base _ u b w h

/-- A record with one question image, used to exercise the assembler. -/
def eImg : Entry :=
  ⟨none, some "1", "S", none, "hello", ["https://h/x.png"], [], none, "", "", []⟩

/-- C4 witness: on a concrete record with one image and an HTTP layer that
returns bytes `[7]`, the picture is embedded and `claim_C4` instantiates
with its membership hypothesis discharged, giving width 4. -/
theorem claim_C4_witness :
    DocItem.pic "https://h/x.png" [7] 4 ∈ create_docx httpOK [eImg] none ∧ (4 : Nat) = 4 :=
  ⟨by decide, (claim_C4 httpOK [eImg] none).2 "https://h/x.png" [7] 4 (by decide)⟩

/-! ## Claim C7 -/

/-- The HTTP layer with one unreachable URL. -/
def fail_on (http : String → Except String ByteData) (bad : String) :
    String → Except String ByteData :=
  fun u => if u = bad then Except.error "unreachable" else http u

/-- Is this instruction a picture fetched from the given URL? -/
def is_pic_from (bad : String) (it : DocItem) : Bool :=
  match it with
  | DocItem.pic src _ _ => src = bad
  | _ => false

/-- Is this instruction a text paragraph? -/
def is_para (it : DocItem) : Bool :=
  match it with
  | DocItem.para _ => true
  | _ => false

/-- Filtering distributes over `flatMap`. -/
theorem filter_flatMap {α β : Type} (l : List α) (f : α → List β) (p : β → Bool) :
    (l.flatMap f).filter p = l.flatMap (fun x => (f x).filter p) := by
  induction l with
  | nil => rfl
  | cons x xs ih => simp [List.flatMap_cons, List.filter_append, ih]

/-- Fetching through the layer with one unreachable URL: the bad resolved
URL yields `None`, everything else is unchanged. -/
theorem fetch_fail_on (http : String → Except String ByteData) (bad u : String)
    (base : Option String) :
    fetch_image_bytes (fail_on http bad) u base
      = if resolve_img_url u base = bad then none else fetch_image_bytes http u base := by
  unfold fetch_image_bytes fail_on
  by_cases hu : u.isEmpty
  · by_cases hb : resolve_img_url u base = bad <;> simp [hu, hb]
  · by_cases hb : resolve_img_url u base = bad <;> simp [hu, hb]

/-- Making one URL unreachable removes exactly the pictures fetched from
it from a block's embedded images. -/
theorem embed_images_fail (http : String → Except String ByteData) (base : Option String)
    (bad : String) (urls : List String) :
    embed_images (fail_on http bad) base urls
      = (embed_images http base urls).filter (fun it => !(is_pic_from bad it)) := by
  induction urls with
  | nil => rfl
  | cons u rest ih =>
    unfold embed_images at ih ⊢
    simp only [List.filterMap_cons]
    rw [fetch_fail_on http bad u base]
    by_cases hb : resolve_img_url u base = bad
    · rw [if_pos hb]
      cases hf : fetch_image_bytes http u base with
      | none => simpa [hf] using ih
      | some bytes => simp [hf, is_pic_from, hb, ih]
    · rw [if_neg hb]
      cases hf : fetch_image_bytes http u base with
      | none => simpa [hf] using ih
      | some bytes => simp [hf, is_pic_from, hb, ih]

/-- Making one URL unreachable removes exactly its pictures from a
record's block; every paragraph and page break survives. -/
theorem record_block_fail (http : String → Except String ByteData) (base : Option String)
    (bad : String) (e : Entry) :
    record_block (fail_on http bad) base e
      = (record_block http base e).filter (fun it => !(is_pic_from bad it)) := by
  unfold record_block
  simp only [embed_images_fail, List.filter_append, filter_flatMap, List.filter_cons]
  simp [is_pic_from]

/-- A scenario record: question text, the given question images, an answer
and a solution, no options. -/
def e7 (qt : String) (imgs : List String) : Entry :=
  ⟨none, some "1", "S", none, qt, imgs, [], none, "a", "sol", []⟩

/-- C7: a failure to fetch any single image only omits that image — every
paragraph and page break of every record survives, assembly continues
through all records and `create_docx` stays total; in the 3-record
scenario with one unreachable image, the document still contains all three
records' text blocks and every image that succeeded. -/
theorem claim_C7 (http : String → Except String ByteData) (entries : List Entry)
    (base : Option String) (bad : String) :
    create_docx (fail_on http bad) entries base
      = (create_docx http entries base).filter (fun it => !(is_pic_from bad it)) ∧
    (create_docx (fail_on http bad) entries base).filter is_para
      = (create_docx http entries base).filter is_para ∧
    create_docx (fail_on httpOK "https://h/b.png")
        [e7 "q1" ["https://h/a.png"], e7 "q2" ["https://h/b.png"], e7 "q3" []] none
      = [DocItem.para "[Q] q1", DocItem.pic "https://h/a.png" [7] 4,
         DocItem.para "[ANS] a", DocItem.para "[SOL] sol", DocItem.pageBreak,
         DocItem.para "[Q] q2",
         DocItem.para "[ANS] a", DocItem.para "[SOL] sol", DocItem.pageBreak,
         DocItem.para "[Q] q3",
         DocItem.para "[ANS] a", DocItem.para "[SOL] sol", DocItem.pageBreak] := by
  have h1 : create_docx (fail_on http bad) entries base
      = (create_docx http entries base).filter (fun it => !(is_pic_from bad it)) := by
    rw [create_docx_eq, create_docx_eq, filter_flatMap]
    exact List.flatMap_congr (fun e _ => record_block_fail http base bad e)
  refine ⟨h1, ?_, by decide⟩
  rw [h1, List.filter_filter]
  apply List.filter_congr
  intro it _
  cases it <;> rfl

/-! ## Claim C8 -/

/-- A reference starting with `//` also starts with `/`. -/
theorem startsWith_slash_of_dslash (u : String)
    (h : strStartsWith u "//" = true) : strStartsWith u "/" = true := by
  unfold strStartsWith at h ⊢
  cases hu : u.data with
  | nil => rw [hu] at h; simp [List.isPrefixOf] at h
  | cons c rest =>
    rw [hu] at h
    simp [List.isPrefixOf] at h ⊢
    exact h.1

/-- C8: image reference resolution — a reference beginning with `//` is
promoted to an `https://` URL; one beginning with a single `/` is resolved
against a supplied (truthy) base URL; one not beginning with `/` is used
unchanged. -/
theorem claim_C8 (u : String) (base : Option String) :
    (strStartsWith u "//" = true → resolve_img_url u base = "https:" ++ u) ∧
    (strStartsWith u "//" = false → strStartsWith u "/" = true →
      ∀ b, base = some b → b.isEmpty = false → resolve_img_url u base = url_join b u) ∧
    (strStartsWith u "/" = false → resolve_img_url u base = u) := by
  refine ⟨?_, ?_, ?_⟩
  · intro h
    unfold resolve_img_url
    rw [if_pos h]
  · intro h2 h1 b hb hbne
    unfold resolve_img_url
    rw [if_neg (by rw [h2]; exact Bool.false_ne_true), if_pos]
    · rw [hb]; rfl
    · rw [h1, hb]
      simp [pyTruthy, hbne]
  · intro h
    have h2 : strStartsWith u "//" = false := by
      cases hd : strStartsWith u "//" with
      | false => rfl
      | true => rw [startsWith_slash_of_dslash u hd] at h; exact h.symm ▸ rfl
    unfold resolve_img_url
    rw [if_neg (by rw [h2]; exact Bool.false_ne_true),
        if_neg (by rw [h]; simp)]

/-- C8 witness: the three reference resolutions of the specification,
obtained by instantiating `claim_C8` with its hypotheses discharged. -/
theorem claim_C8_witness :
    resolve_img_url "//cdn.example.com/x.png" none = "https://cdn.example.com/x.png" ∧
    resolve_img_url "/img/x.png" (some "https://host.com") = "https://host.com/img/x.png" ∧
    resolve_img_url "https://other.com/x.png" (some "https://host.com")
      = "https://other.com/x.png" := by
  refine ⟨?_, ?_, ?_⟩
  · have h := (claim_C8 "//cdn.example.com/x.png" none).1 (by decide)
    rw [h]
    decide
  · have h := (claim_C8 "/img/x.png" (some "https://host.com")).2.1 (by decide) (by decide)
      "https://host.com" rfl (by decide)
    rw [h]
    decide
  · exact (claim_C8 "https://other.com/x.png" (some "https://host.com")).2.2 (by decide)

/-! ## Claims C5 and C10 -/

/-- A question whose only field is a Hindi HTML answer. -/
def qC5cex : StrDict := [("answer_hi", some "<p>Hello</p>")]

/-- C5 counterexample: the claim quantifies over every question whose
`answer_en` is not a valid numeric choice, which includes an absent
`answer_en`.  There the code never consults `answer_{lang}`: with
`answer_en` absent and `answer_hi = "<p>Hello</p>"`, the claim demands
`answer_text = "Hello"` (the Field-Extractor text of `answer_hi`) but the
record carries `answer_text = ""`. -/
theorem claim_C5_counterexample :
    dget qC5cex "answer_en" = none ∧
    (processQuestion none "S" "hi" qC5cex).answer_index = none ∧
    (processQuestion none "S" "hi" qC5cex).answer_text = "" ∧
    (parse_html_field (dget qC5cex "answer_hi")).1 = "Hello" ∧
    (processQuestion none "S" "hi" qC5cex).answer_text
      ≠ (parse_html_field (dget qC5cex "answer_hi")).1 := by
  refine ⟨rfl, by decide, by decide, by decide, by decide⟩

/-- C5 (amended): for every question object whose `answer_en` field is
present and non-empty but not a valid 1-based numeric choice within the
retained option count, the produced record has `answer_index` absent and
`answer_text` equal to the Field-Extractor plain text of the
`answer_{lang}` field when that field is present and non-empty, otherwise
of the raw `answer_en` value. -/
theorem claim_C5 (sid : Option String) (sname lang : String) (q : StrDict) (s : String)
    (hget : dget q "answer_en" = some s) (hs : s.isEmpty = false)
    (hinv : ∀ n : Int, pyInt s = some n →
      ¬(1 ≤ n ∧ n ≤ ((collect_options lang q).length : Int))) :
    (processQuestion sid sname lang q).answer_index = none ∧
    (processQuestion sid sname lang q).answer_text
      = (parse_html_field (pyOrOpt (dget q ("answer_" ++ lang)) (some s))).1 := by
  have h := resolve_answer_fallback (collect_options lang q).length lang q s hget
    (by rw [hs]; exact Bool.false_ne_true) hinv
  constructor
  · show (resolve_answer (collect_options lang q).length lang q).1 = none
    rw [h]
  · show (resolve_answer (collect_options lang q).length lang q).2 = _
    rw [h]

/-- A question whose `answer_en` is raw HTML (non-numeric). -/
def qC5 : StrDict := [("answer_en", some "<p>x</p>")]

/-- C5 witness: with `answer_en = "<p>x</p>"` (present, non-numeric) the
amended claim instantiates — `answer_index` is absent and `answer_text` is
the extracted plain text `"x"`. -/
theorem claim_C5_witness :
    (processQuestion none "S" "en" qC5).answer_index = none ∧
    (processQuestion none "S" "en" qC5).answer_text = "x" := by
  have h := claim_C5 none "S" "en" qC5 "<p>x</p>" rfl (by decide)
    (by
      intro n hn
      rw [(by decide : pyInt "<p>x</p>" = none)] at hn
      exact Option.noConfusion hn)
  refine ⟨h.1, ?_⟩
  rw [h.2]
  decide

/-- Unequal keys look through a field update. -/
theorem dget_set_ne (q : StrDict) (k k' : String) (v : Option String) (h : k' ≠ k) :
    dget (set_field q k v) k' = dget q k' := by
  unfold set_field dget
  have hb : (k' == k) = false := by
    simp [h]
  simp [List.lookup, hb]

/-- Strings of different lengths differ. -/
theorem ne_of_length_ne {a b : String} (h : a.length ≠ b.length) : a ≠ b :=
  fun he => h (by rw [he])

/-- `topic_id` is never the `answer_{lang}` key. -/
theorem topic_id_ne_answer (lang : String) : ("topic_id" : String) ≠ "answer_" ++ lang := by
  intro h
  have hd := congrArg String.data h
  rw [String.data_append] at hd
  simp at hd

/-- C10: for every question object whose `answer_en` field is absent,
`null` or the empty string, the produced record has `answer_index` absent
and `answer_text` equal to the empty string, and the `answer_{lang}` field
is never consulted: replacing it by any value (that leaves `answer_en`
absent/empty) leaves the produced record unchanged. -/
theorem claim_C10 (sid : Option String) (sname lang : String) (q : StrDict)
    (h : dget q "answer_en" = none ∨ dget q "answer_en" = some "") :
    (processQuestion sid sname lang q).answer_index = none ∧
    (processQuestion sid sname lang q).answer_text = "" ∧
    (∀ v : Option String,
      dget (set_field q ("answer_" ++ lang) v) "answer_en" = dget q "answer_en" →
      processQuestion sid sname lang (set_field q ("answer_" ++ lang) v)
        = processQuestion sid sname lang q) := by
  have hres := resolve_answer_empty (collect_options lang q).length lang q h
  refine ⟨?_, ?_, ?_⟩
  · show (resolve_answer (collect_options lang q).length lang q).1 = none
    rw [hres]
  · show (resolve_answer (collect_options lang q).length lang q).2 = ""
    rw [hres]
  · intro v heq
    have h7 : ("answer_" : String).length = 7 := by decide
    have hd : ∀ k', k' ≠ "answer_" ++ lang →
        dget (set_field q ("answer_" ++ lang) v) k' = dget q k' :=
      fun k' hk => dget_set_ne q _ k' v hk
    have hqkey : ∀ i : Nat, option_key lang i ≠ "answer_" ++ lang := by
      intro i
      apply ne_of_length_ne
      unfold option_key
      rw [String.length_append, String.length_append, String.length_append,
        String.length_append]
      have h1 : ("option_" : String).length = 7 := by decide
      have h2 : ("_" : String).length = 1 := by decide
      omega
    have hoptdget : ∀ i : Nat, dget (set_field q ("answer_" ++ lang) v) (option_key lang i)
        = dget q (option_key lang i) := fun i => hd _ (hqkey i)
    have hco : collect_options lang (set_field q ("answer_" ++ lang) v)
        = collect_options lang q := by
      unfold collect_options
      simp only [hoptdget]
    have hempty' : dget (set_field q ("answer_" ++ lang) v) "answer_en" = none ∨
        dget (set_field q ("answer_" ++ lang) v) "answer_en" = some "" := by
      rw [heq]; exact h
    have hres' := resolve_answer_empty
      (collect_options lang (set_field q ("answer_" ++ lang) v)).length lang
      (set_field q ("answer_" ++ lang) v) hempty'
    have e1 := hd ("question_" ++ lang) (by
      apply ne_of_length_ne
      rw [String.length_append, String.length_append]
      have h9 : ("question_" : String).length = 9 := by decide
      omega)
    have e2 := hd ("solution_" ++ lang) (by
      apply ne_of_length_ne
      rw [String.length_append, String.length_append]
      have h9 : ("solution_" : String).length = 9 := by decide
      omega)
    have e3 := hd "qid" (by
      apply ne_of_length_ne
      rw [String.length_append]
      have h3 : ("qid" : String).length = 3 := by decide
      omega)
    have e4 := hd "topic_id" (topic_id_ne_answer lang)
    rw [hco] at hres'
    unfold processQuestion
    simp only [hco, e1, e2, e3, e4, hres', hres]

/-- A question with no `answer_en` but a Hindi answer and question text. -/
def qC10 : StrDict := [("question_hi", some "Qq"), ("answer_hi", some "<p>Hello</p>")]

/-- C10 witness: on a question with `answer_en` absent, the record has no
answer index, empty answer text, and replacing `answer_hi` changes
nothing. -/
theorem claim_C10_witness :
    (processQuestion none "S" "hi" qC10).answer_index = none ∧
    (processQuestion none "S" "hi" qC10).answer_text = "" ∧
    processQuestion none "S" "hi" (set_field qC10 ("answer_" ++ "hi") (some "<p>Z</p>"))
      = processQuestion none "S" "hi" qC10 := by
  have h := claim_C10 none "S" "hi" qC10 (Or.inl rfl)
  exact ⟨h.1, h.2.1, h.2.2 (some "<p>Z</p>") (by decide)⟩

/-! ## Claim C6 -/

/-- The truthy `src` of a token: `img.get('src')` followed by the `if src:`
check (an absent, valueless or empty `src` is skipped). -/
def truthy_src (t : HTok) : Option String :=
  match tag_src t with
  | some v => if v.isEmpty then none else some v
  | none => none

/-- Every `img` tag's truthy `src`, in document order. -/
def img_srcs (toks : List HTok) : List String :=
  toks.filterMap (fun t => if is_img_tag t then truthy_src t else none)

/-- `filterMap` after `filter` is one guarded `filterMap`. -/
theorem filterMap_filter_guard {α β : Type} (p : α → Bool) (f : α → Option β) (l : List α) :
    (l.filter p).filterMap f = l.filterMap (fun x => if p x then f x else none) := by
  induction l with
  | nil => rfl
  | cons x xs ih =>
    by_cases hp : p x <;> simp [List.filter_cons, hp, List.filterMap_cons, ih]

/-- C6: the Field Extractor on `None` or the empty string returns exactly
`("", [])` (it is a total function, so it never raises); its image list is
exactly every `img` tag's truthy `src` in document order, skipping `img`
elements without one; and on `"<p>A &amp; B<img src='/x.png'></p>"` it
returns the entity-decoded, whitespace-collapsed text `"A & B"` and the
image list `["/x.png"]`. -/
theorem claim_C6 :
    parse_html_field none = ("", []) ∧
    parse_html_field (some "") = ("", []) ∧
    (∀ s : String, (parse_html_field (some s)).2 = img_srcs (lexHTML s)) ∧
    parse_html_field (some "<p>A &amp; B<img src='/x.png'></p>")
      = ("A & B", ["/x.png"]) := by
  refine ⟨rfl, by decide, ?_, by decide⟩
  intro s
  by_cases he : s.isEmpty
  · rw [String.isEmpty_iff] at he
    subst he
    decide
  · unfold parse_html_field
    simp only [pyTruthy, he, Bool.not_false, Bool.not_true, if_false]
    have hbody : (fun (acc : List String) (t : HTok) =>
        match tag_src t with
        | some src => if src.isEmpty then acc else acc ++ [src]
        | none => acc)
        = fun (acc : List String) (t : HTok) => acc ++ (truthy_src t).toList := by
      funext acc t
      unfold truthy_src
      cases tag_src t with
      | none => simp
      | some v => by_cases hv : v.isEmpty <;> simp [hv]
    rw [hbody]
    have h1 := foldl_append_filterMap truthy_src ([] : List String)
      ((lexHTML ((some s).getD "")).filter is_img_tag)
    rw [List.nil_append] at h1
    rw [h1, filterMap_filter_guard]
    rfl

/-! ## Claim C9 -/

/-- The grouping keys in first-seen order. -/
def firstSeenKeys (l : List Entry) : List String :=
  l.foldl (fun acc e => if gbs_key e ∈ acc then acc else acc ++ [gbs_key e]) []

/-- The name a group gets: contributed by the first record with that key. -/
def name_for (l : List Entry) (k : String) : String :=
  match l.find? (fun e => gbs_key e == k) with
  | some e => gbs_name e
  | none => ""

/-- Section grouping as the specification words it: one group per key in
first-seen order, named by its first record, holding the sub-sequence of
records with that key in original input order. -/
def spec_groups (l : List Entry) : List (String × SectionGroup) :=
  (firstSeenKeys l).map (fun k =>
    (k, ⟨name_for l k, l.filter (fun e => gbs_key e == k)⟩))

theorem firstSeenKeys_append (l : List Entry) (e : Entry) :
    firstSeenKeys (l ++ [e])
      = if gbs_key e ∈ firstSeenKeys l then firstSeenKeys l
        else firstSeenKeys l ++ [gbs_key e] := by
  unfold firstSeenKeys
  rw [List.foldl_append]
  rfl

theorem mem_fsk_aux (l : List Entry) (k : String) : ∀ acc : List String,
    (k ∈ l.foldl (fun acc e => if gbs_key e ∈ acc then acc else acc ++ [gbs_key e]) acc)
      ↔ k ∈ acc ∨ k ∈ l.map gbs_key := by
  induction l with
  | nil => intro acc; simp
  | cons e es ih =>
    intro acc
    rw [List.foldl_cons, ih]
    by_cases h : gbs_key e ∈ acc
    · rw [if_pos h]
      simp only [List.map_cons, List.mem_cons]
      constructor
      · rintro (h1 | h2)
        · exact Or.inl h1
        · exact Or.inr (Or.inr h2)
      · rintro (h1 | h2 | h3)
        · exact Or.inl h1
        · subst h2; exact Or.inl h
        · exact Or.inr h3
    · rw [if_neg h]
      simp only [List.mem_append, List.mem_singleton, List.map_cons, List.mem_cons]
      tauto

theorem mem_firstSeenKeys (l : List Entry) (k : String) :
    k ∈ firstSeenKeys l ↔ k ∈ l.map gbs_key := by
  have h := mem_fsk_aux l k []
  simpa using h

theorem fsk_nodup_aux (l : List Entry) : ∀ acc : List String, acc.Nodup →
    (l.foldl (fun acc e => if gbs_key e ∈ acc then acc else acc ++ [gbs_key e]) acc).Nodup := by
  induction l with
  | nil => intro acc h; exact h
  | cons e es ih =>
    intro acc h
    rw [List.foldl_cons]
    by_cases hm : gbs_key e ∈ acc
    · rw [if_pos hm]; exact ih acc h
    · rw [if_neg hm]
      refine ih _ ?_
      rw [List.nodup_append]
      refine ⟨h, List.nodup_singleton _, ?_⟩
      intro a ha
      simp only [List.mem_singleton]
      intro hae
      subst hae
      exact hm ha

theorem gbs_append_map (ks : List String) (f : String → SectionGroup) (sid : String)
    (e : Entry) (hnd : ks.Nodup) (hmem : sid ∈ ks) :
    gbs_append (ks.map (fun k => (k, f k))) sid e
      = ks.map (fun k =>
          (k, if k = sid then ⟨(f k).name, (f k).questions ++ [e]⟩ else f k)) := by
  induction ks with
  | nil => cases hmem
  | cons k0 ks ih =>
    rw [List.map_cons, List.map_cons]
    unfold gbs_append
    by_cases hk : k0 = sid
    · rw [if_pos hk, if_pos hk]
      subst hk
      have hnotin : k0 ∉ ks := (List.nodup_cons.mp hnd).1
      congr 1
      apply List.map_congr_left
      intro k hkks
      have : k ≠ k0 := fun hkk => hnotin (hkk ▸ hkks)
      rw [if_neg this]
    · rw [if_neg hk, if_neg hk]
      have hmem' : sid ∈ ks := by
        rcases List.mem_cons.mp hmem with h | h
        · exact absurd h.symm hk
        · exact h
      rw [ih (List.nodup_cons.mp hnd).2 hmem']

theorem gbs_append_last (xs : List (String × SectionGroup)) (sid : String)
    (g : SectionGroup) (e : Entry) (h : ∀ kg ∈ xs, kg.1 ≠ sid) :
    gbs_append (xs ++ [(sid, g)]) sid e
      = xs ++ [(sid, ⟨g.name, g.questions ++ [e]⟩)] := by
  induction xs with
  | nil =>
    simp only [List.nil_append]
    unfold gbs_append
    rw [if_pos rfl]
  | cons x xs ih =>
    rw [List.cons_append, List.cons_append]
    unfold gbs_append
    rw [if_neg (h x (List.mem_cons_self x xs))]
    rw [ih (fun kg hkg => h kg (List.mem_cons_of_mem x hkg))]

theorem spec_groups_any (l : List Entry) (e : Entry) :
    ((spec_groups l).any (fun kg => kg.1 = gbs_key e) = true) ↔ gbs_key e ∈ firstSeenKeys l := by
  unfold spec_groups
  rw [List.any_eq_true]
  constructor
  · rintro ⟨kg, hkg, hp⟩
    obtain ⟨k, hk, rfl⟩ := List.mem_map.mp hkg
    simp only [decide_eq_true_eq] at hp
    exact hp ▸ hk
  · intro h
    refine ⟨_, List.mem_map_of_mem _ h, ?_⟩
    simp

theorem name_for_append_mem (l : List Entry) (e : Entry) (k : String)
    (hk : k ∈ l.map gbs_key) : name_for (l ++ [e]) k = name_for l k := by
  obtain ⟨x, hx, hxk⟩ := List.mem_map.mp hk
  have hsome : (l.find? (fun x => gbs_key x == k)).isSome :=
    List.find?_isSome.mpr ⟨x, hx, by simp [hxk]⟩
  unfold name_for
  cases hf : l.find? (fun x => gbs_key x == k) with
  | none => rw [hf] at hsome; simp at hsome
  | some a => rw [List.find?_append, hf]; rfl

theorem name_for_append_new (l : List Entry) (e : Entry)
    (hnot : gbs_key e ∉ l.map gbs_key) :
    name_for (l ++ [e]) (gbs_key e) = gbs_name e := by
  have hf : l.find? (fun x => gbs_key x == gbs_key e) = none := by
    rw [List.find?_eq_none]
    intro x hx
    simp only [beq_iff_eq]
    intro hxe
    exact hnot (hxe ▸ List.mem_map_of_mem _ hx)
  unfold name_for
  rw [List.find?_append, hf]
  simp [List.find?]

theorem filter_key_append (l : List Entry) (e : Entry) (k : String) :
    (l ++ [e]).filter (fun x => gbs_key x == k)
      = l.filter (fun x => gbs_key x == k) ++ if gbs_key e == k then [e] else [] := by
  rw [List.filter_append]
  congr 1
  by_cases hp : gbs_key e == k <;> simp [List.filter, hp]

theorem filter_key_nil (l : List Entry) (k : String) (hnot : k ∉ l.map gbs_key) :
    l.filter (fun x => gbs_key x == k) = [] := by
  rw [List.filter_eq_nil_iff]
  intro x hx
  simp only [beq_iff_eq]
  intro hxe
  exact hnot (hxe ▸ List.mem_map_of_mem _ hx)

/-- `group_by_section` computes exactly the specification-side grouping. -/
theorem group_by_section_eq (l : List Entry) : group_by_section l = spec_groups l := by
  induction l using List.reverseRecOn with
  | nil => rfl
  | append_singleton l e ih =>
    have hstep : group_by_section (l ++ [e]) = gbs_step (group_by_section l) e := by
      unfold group_by_section
      rw [List.foldl_append]
      rfl
    rw [hstep, ih]
    simp only [gbs_step]
    have hnd : (firstSeenKeys l).Nodup := fsk_nodup_aux l [] List.nodup_nil
    by_cases hmem : gbs_key e ∈ firstSeenKeys l
    · rw [if_pos ((spec_groups_any l e).mpr hmem)]
      show gbs_append (spec_groups l) (gbs_key e) e = spec_groups (l ++ [e])
      unfold spec_groups
      rw [gbs_append_map _ _ _ _ hnd hmem]
      rw [firstSeenKeys_append, if_pos hmem]
      apply List.map_congr_left
      intro k hk
      by_cases hke : k = gbs_key e
      · subst hke
        rw [if_pos rfl]
        have hn := name_for_append_mem l e (gbs_key e)
          ((mem_firstSeenKeys l (gbs_key e)).mp hk)
        rw [hn, filter_key_append, if_pos (by simp)]
      · rw [if_neg hke]
        have hn := name_for_append_mem l e k ((mem_firstSeenKeys l k).mp hk)
        rw [hn, filter_key_append, if_neg (by simp; exact fun h => hke h.symm),
          List.append_nil]
    · rw [if_neg (fun hc => hmem ((spec_groups_any l e).mp hc))]
      have hkeys : ∀ kg ∈ spec_groups l, kg.1 ≠ gbs_key e := by
        intro kg hkg
        unfold spec_groups at hkg
        obtain ⟨k, hk, rfl⟩ := List.mem_map.mp hkg
        intro hke
        exact hmem (hke ▸ hk)
      rw [gbs_append_last _ _ _ _ hkeys]
      unfold spec_groups
      rw [firstSeenKeys_append, if_neg hmem, List.map_append]
      have hnotmap : gbs_key e ∉ l.map gbs_key :=
        fun hc => hmem ((mem_firstSeenKeys l (gbs_key e)).mpr hc)
      congr 1
      · apply List.map_congr_left
        intro k hk
        have hke : k ≠ gbs_key e := fun h => hmem (h ▸ hk)
        have hn := name_for_append_mem l e k ((mem_firstSeenKeys l k).mp hk)
        rw [hn, filter_key_append, if_neg (by simp; exact fun h => hke h.symm),
          List.append_nil]
      · rw [List.map_singleton]
        rw [name_for_append_new l e hnotmap]
        rw [filter_key_append, if_pos (by simp), filter_key_nil l _ hnotmap,
          List.nil_append]

/-- Example record in section 1. -/
def egA : Entry := ⟨none, some "1", "S1", none, "qa", [], [], none, "", "", []⟩

/-- Example record in section 2. -/
def egB : Entry := ⟨none, some "2", "S2", none, "qb", [], [], none, "", "", []⟩

/-- Example record in section 1 again (different section name). -/
def egC : Entry := ⟨none, some "1", "S1x", none, "qc", [], [], none, "", "", []⟩

/-- C9: `group_by_section` returns groups keyed by `section_id` (empty
string when absent), with keys in first-seen order, each group named by
its first record (`section_name`, or the identifier itself when the name
is empty) and holding the sub-sequence of its records in original input
order; it is a total (pure) function, and on records with section ids
`[1, 2, 1]` it produces exactly two groups, group `1` holding the records
from original positions 0 and 2 in that relative order. -/
theorem claim_C9 :
    (∀ l : List Entry, group_by_section l = spec_groups l) ∧
    group_by_section [egA, egB, egC]
      = [("1", ⟨"S1", [egA, egC]⟩), ("2", ⟨"S2", [egB]⟩)] :=
  ⟨group_by_section_eq, by decide⟩

/-! ## Claim C2 -/

/-- C2: payload recovery tries the fixed ordered strategies — direct
parse; parse of the entity-decoded first `<body>…</body>` region (whole
content when absent); parse after replacing escaped double-quotes — and
agrees with that strategy list: it succeeds exactly when some strategy
succeeds, with the first success's value; when every strategy fails, it
raises an error whose exception chain ends with the original direct-parse
failure. -/
theorem claim_C2 {E J : Type} (parse : String → Except E J) (content : String) :
    (∀ j : J, fetch_raw_json_content parse content = Except.ok j ↔
      spec_recovery parse content = some j) ∧
    (∀ ch : List E, fetch_raw_json_content parse content = Except.error ch →
      spec_recovery parse content = none ∧
      ∃ e0, parse content = Except.error e0 ∧ ch.getLast? = some e0) := by
  unfold fetch_raw_json_content extract_json_from_html_wrapper spec_recovery
    recovery_strategies decoded_body_region
  cases h0 : parse content with
  | ok j0 => simp [first_ok]
  | error e0 =>
    cases h1 : parse (html_unescape (String.mk (pyStripChars
        (match extract_body_region content.data with
         | some r => r
         | none => content.data)))) with
    | ok j1 => simp [h1, first_ok]
    | error e1 =>
      cases h2 : parse (py_replace (html_unescape (String.mk (pyStripChars
          (match extract_body_region content.data with
           | some r => r
           | none => content.data)))) "\\\"" "\"") with
      | ok j2 => simp [h1, h2, first_ok]
      | error e2 =>
        simp only [h1, h2, first_ok]
        constructor
        · intro j
          simp
        · intro ch hch
          simp only [Except.error.injEq] at hch
          subst hch
          exact ⟨trivial, e0, rfl, rfl⟩

/-- A demonstration parser: accepts exactly `"{}"`, fails with the input
length otherwise. -/
def demoParse : String → Except Nat Nat :=
  fun s => if s = "{}" then Except.ok 0 else Except.error s.length

/-- C2 witness: on content every strategy rejects, `claim_C2` instantiates
with its hypothesis discharged — no strategy succeeds and the raised chain
ends with the original parse failure. -/
theorem claim_C2_witness :
    spec_recovery demoParse "abc" = none ∧
    ∃ e0, demoParse "abc" = Except.error e0 ∧ ([3, 3, 3] : List Nat).getLast? = some e0 :=
  (claim_C2 demoParse "abc").2 [3, 3, 3] (by rfl)

/-- The recovery round-trip on an HTML-wrapped, escape-quoted payload:
the `<body>` region is extracted and unescaped, and `\"` is repaired, so
the third strategy succeeds. -/
example :
    fetch_raw_json_content demoParse "<html><body> \\\"{}\\\" </body></html>"
      = Except.error [4, 6, 34] ∧
    fetch_raw_json_content demoParse "<html><body>{}</body></html>" = Except.ok 0 := by
  constructor <;> rfl

example : fetch_raw_json_content demoParse "{}" = Except.ok 0 := by rfl
